import Mathlib

/-!
Shallow embedding of rhvoice.py (rhvoice-rest) and verification of its
specification claims.  The embedding covers: the FakeFile stream adapter
(a closable FIFO chunk channel), the WaveWrite framer with its no-op
header-patching overrides, the close sequence of a request in
BaseTTS, the busy and reading flags of ProcessTTS, the dispatch loop of
MultiTTS.say, and the stream-queue recycling in ProcessTTS.
Byte strings are modelled as lists of naturals; the empty list models the
empty bytes object, which the code uses as the terminal sentinel.
-/

/-- Chunk of bytes. The empty chunk is the terminal sentinel. -/
abbrev Chunk : Type := List Nat

/-- State of a FakeFile from rhvoice.py: the queue contents (queue.Queue is
FIFO, modelled front at the head) and the open flag set in init. -/
structure FakeFile where
  q : List Chunk
  opn : Bool
deriving DecidableEq, Repr

/-- Fresh FakeFile: empty queue, open flag set. -/
def FakeFile.init : FakeFile := ⟨[], true⟩

/-- FakeFile.write: put the data on the queue only when it is non-empty
(Python truthiness of bytes). -/
def FakeFile.write (s : FakeFile) (data : Chunk) : FakeFile :=
  if data = [] then s else { s with q := s.q ++ [data] }

/-- FakeFile.end: enqueue the empty sentinel when the open flag is still
set. Note the flag is cleared only by read, never by this method. The
method is named end in the source; end is a keyword in Lean. -/
def FakeFile.end' (s : FakeFile) : FakeFile :=
  if s.opn then { s with q := s.q ++ [[]] } else s

/-- FakeFile.read: when closed, return the empty chunk immediately. When
more than one chunk is queued, drain and concatenate the whole queue,
clearing the open flag when an empty sentinel was among the drained
chunks. Otherwise take the single queued chunk, clearing the open flag
when it is the sentinel; a read of an empty open queue blocks, which the
embedding renders as none. -/
def FakeFile.read (s : FakeFile) : Option (Chunk × FakeFile) :=
  if s.opn = false then some ([], s)
  else if s.q.length > 1 then
    some (s.q.flatten, { q := [], opn := s.q.all (fun c => !c.isEmpty) })
  else
    match s.q with
    | [] => none
    | c :: _ => some (c, { q := [], opn := !c.isEmpty })

/-- Sequence of producer writes, in order. -/
def FakeFile.writeAll (s : FakeFile) (ws : List Chunk) : FakeFile :=
  ws.foldl FakeFile.write s

/-- Consumer loop: read until the first empty chunk (the way _iter_me
consumes a FakeFile), collecting the non-terminal chunks and returning
the state left after consuming the terminal sentinel; none when a read
would block or the fuel runs out. -/
def FakeFile.readUntilEnd : FakeFile → Nat → Option (List Chunk × FakeFile)
  | _, 0 => none
  | s, Nat.succ fuel =>
    match s.read with
    | none => none
    | some (c, s') =>
      if c = [] then some ([], s')
      else
        match s'.readUntilEnd fuel with
        | none => none
        | some (cs, s'') => some (c :: cs, s'')

theorem FakeFile.writeAll_spec (ws : List Chunk) (s : FakeFile)
    (h : ∀ w ∈ ws, w ≠ []) : s.writeAll ws = ⟨s.q ++ ws, s.opn⟩ := by
  induction ws generalizing s with
  | nil => simp [writeAll]
  | cons w rest ih =>
    have hw : w ≠ [] := h w (List.mem_cons_self _ _)
    have hrest : ∀ x ∈ rest, x ≠ [] := fun x hx => h x (List.mem_cons_of_mem _ hx)
    have hstep : s.write w = ⟨s.q ++ [w], s.opn⟩ := by
      simp [write, hw]
    calc s.writeAll (w :: rest)
        = (s.write w).writeAll rest := rfl
      _ = ⟨(s.write w).q ++ rest, (s.write w).opn⟩ := ih _ hrest
      _ = ⟨s.q ++ (w :: rest), s.opn⟩ := by
          rw [hstep]; simp

/-- C1: writes of non-empty chunks followed by one end and then a pure
read loop: the chunks read back concatenate to the written bytes, the
loop terminates at the first (single) empty terminal chunk, and the state
left behind answers every further read immediately with the empty chunk
(read is a fixpoint returning the empty chunk without blocking). -/
theorem C1_stream_roundtrip (ws : List Chunk) (h : ∀ w ∈ ws, w ≠ []) :
    ∃ cs s',
      FakeFile.readUntilEnd ((FakeFile.init.writeAll ws).end') (ws.length + 2)
        = some (cs, s') ∧
      cs.flatten = ws.flatten ∧
      s'.read = some ([], s') := by
  have hwa : FakeFile.init.writeAll ws = ⟨ws, true⟩ := by
    simpa using FakeFile.writeAll_spec ws FakeFile.init h
  have hend : (FakeFile.init.writeAll ws).end' = ⟨ws ++ [[]], true⟩ := by
    rw [hwa]; simp [FakeFile.end']
  rw [hend]
  cases ws with
  | nil =>
    refine ⟨[], ⟨[], false⟩, ?_, by simp, by simp [FakeFile.read]⟩
    simp [FakeFile.readUntilEnd, FakeFile.read]
  | cons w rest =>
    have hw : w ≠ [] := h w (List.mem_cons_self _ _)
    have hjoin : (w :: rest).flatten ≠ [] := by
      simp only [List.flatten]
      intro hcontra
      exact hw (List.append_eq_nil.mp hcontra).1
    have hlen : ((w :: rest) ++ [([] : Chunk)]).length > 1 := by
      simp
    have hread : (⟨(w :: rest) ++ [[]], true⟩ : FakeFile).read
        = some ((w :: rest).flatten, ⟨[], false⟩) := by
      simp [FakeFile.read, hlen]
    refine ⟨[(w :: rest).flatten], ⟨[], false⟩, ?_, by simp, by simp [FakeFile.read]⟩
    show FakeFile.readUntilEnd _ (rest.length + 3) = _
    rw [show rest.length + 3 = Nat.succ (rest.length + 2) from rfl]
    simp only [FakeFile.readUntilEnd, hread]
    rw [if_neg hjoin]
    simp [FakeFile.readUntilEnd, FakeFile.read]

/-- Witness for C1 at a concrete pair of writes. -/
theorem C1_stream_roundtrip_witness :
    (∀ w ∈ [[1], [2, 3]], w ≠ ([] : Chunk)) ∧
    ∃ cs s',
      FakeFile.readUntilEnd ((FakeFile.init.writeAll [[1], [2, 3]]).end') 4
        = some (cs, s') ∧
      cs.flatten = [1, 2, 3] ∧
      s'.read = some ([], s') :=
  ⟨by decide, C1_stream_roundtrip [[1], [2, 3]] (by decide)⟩

/-- C2 counterexample: two end calls on a fresh FakeFile enqueue two
terminal sentinels, because the open flag is cleared only by a read, so
the second end is not a no-op on the queue. -/
theorem C2_counterexample :
    ((FakeFile.init.end').end').q = [[], []] ∧
    ((FakeFile.init.end').end').q.count ([] : Chunk) = 2 := by
  decide

/-- C2 amended: end is a no-op on the whole state exactly when the
adapter has been closed, that is after a read has consumed a terminal
sentinel and cleared the open flag; while the flag is still set every
end call enqueues a further sentinel. -/
theorem C2_end_idempotent_once_closed (s : FakeFile) (h : s.opn = false) :
    s.end' = s := by
  simp [FakeFile.end', h]

/-- Witness for the amended C2 at a concrete closed state. -/
theorem C2_end_idempotent_once_closed_witness :
    (⟨[], false⟩ : FakeFile).opn = false ∧
    (⟨[], false⟩ : FakeFile).end' = ⟨[], false⟩ :=
  ⟨rfl, C2_end_idempotent_once_closed ⟨[], false⟩ rfl⟩

/-- C9: writing the empty chunk is a complete no-op on the FakeFile
state, and no write, whatever its data, changes the open flag or the
number of terminal sentinels in the queue: only end can enqueue the
sentinel. -/
theorem C9_empty_write_noop (s : FakeFile) (d : Chunk) :
    s.write [] = s ∧
    (s.write d).opn = s.opn ∧
    (s.write d).q.count ([] : Chunk) = s.q.count [] := by
  refine ⟨by simp [FakeFile.write], ?_, ?_⟩
  · by_cases hd : d = [] <;> simp [FakeFile.write, hd]
  · by_cases hd : d = []
    · simp [FakeFile.write, hd]
    · simp [FakeFile.write, hd, List.count_append]

/-- Output event of the wave framer: a header record (with the channel
count, sample width, frame rate and the declared length) or a block of
raw PCM data appended verbatim. -/
inductive WEvent
  | header (nchannels sampwidth framerate size : Nat)
  | data (c : Chunk)
deriving DecidableEq, Repr

/-- State of the WaveWrite subclass of wave.Wave_write used in
rhvoice.py: the events emitted to the underlying target so far and the
parameters set by the setter calls. -/
structure WaveWrite where
  out : List WEvent
  nchannels : Nat
  sampwidth : Nat
  framerate : Nat
deriving DecidableEq, Repr

/-- Fresh writer before the setter calls of _start_stream. -/
def WaveWrite.new : WaveWrite := ⟨[], 0, 0, 0⟩

def WaveWrite.setnchannels (w : WaveWrite) (n : Nat) : WaveWrite :=
  { w with nchannels := n }

def WaveWrite.setsampwidth (w : WaveWrite) (n : Nat) : WaveWrite :=
  { w with sampwidth := n }

def WaveWrite.setframerate (w : WaveWrite) (n : Nat) : WaveWrite :=
  { w with framerate := n }

/-- The override of _ensure_header_written in rhvoice.py is pass: it
never emits a header, unlike the base class method. -/
def WaveWrite.ensure_header_written (w : WaveWrite) : WaveWrite := w

/-- The override of _patchheader in rhvoice.py is pass: it never seeks
back and never rewrites a header byte, unlike the base class method. -/
def WaveWrite.patchheader (w : WaveWrite) : WaveWrite := w

/-- Wave_write._write_header: emits the header with the declared size
(called directly by _sr_callback with the 0xFFFFFFF placeholder). -/
def WaveWrite.write_header (w : WaveWrite) (size : Nat) : WaveWrite :=
  { w with out := w.out ++ [WEvent.header w.nchannels w.sampwidth w.framerate size] }

/-- Wave_write.writeframesraw: calls _ensure_header_written (a no-op
here) and then writes the raw bytes verbatim to the target. -/
def WaveWrite.writeframesraw (w : WaveWrite) (c : Chunk) : WaveWrite :=
  { w.ensure_header_written with out := w.ensure_header_written.out ++ [WEvent.data c] }

/-- Wave_write.close: calls _ensure_header_written and _patchheader,
both no-ops here, so close emits nothing. -/
def WaveWrite.close (w : WaveWrite) : WaveWrite :=
  (w.ensure_header_written).patchheader

/-- Sample width constant SAMPLE_SIZE of BaseTTS. -/
def BaseTTS.SAMPLE_SIZE : Nat := 2

/-- The wave setup of BaseTTS._start_stream for the native wav format: a
fresh WaveWrite with one channel, the SAMPLE_SIZE sample width and the
announced frame rate. -/
def BaseTTS.start_stream_wave (rate : Nat) : WaveWrite :=
  (((WaveWrite.new).setnchannels 1).setsampwidth BaseTTS.SAMPLE_SIZE).setframerate rate

/-- BaseTTS._sr_callback for the native format: runs _start_stream and
writes the header once with the 0xFFFFFFF placeholder length. -/
def BaseTTS.sr_callback (rate : Nat) : WaveWrite :=
  (BaseTTS.start_stream_wave rate).write_header 0xFFFFFFF

/-- Whole native-format request, relying on the engine contract that the
rate callback fires exactly once, at the start of the utterance: the
rate callback, then one writeframesraw per speech callback, then the
close from _generate. -/
def BaseTTS.runRequestWav (rate : Nat) (samples : List Chunk) : WaveWrite :=
  (samples.foldl WaveWrite.writeframesraw (BaseTTS.sr_callback rate)).close

/-- Number of header events emitted to the target. -/
def WaveWrite.headerCount (w : WaveWrite) : Nat :=
  w.out.countP (fun e => match e with | WEvent.header _ _ _ _ => true | _ => false)

theorem WaveWrite.foldl_writeframesraw_out (samples : List Chunk) (w : WaveWrite) :
    (samples.foldl WaveWrite.writeframesraw w).out = w.out ++ samples.map WEvent.data := by
  induction samples generalizing w with
  | nil => simp
  | cons c rest ih =>
    simp [List.foldl_cons, ih, WaveWrite.writeframesraw, WaveWrite.ensure_header_written]

/-- C7: a native-format request emits the header exactly once, first,
with the declared 0xFFFFFFF length placeholder and the announced rate,
and everything after it is exactly the raw PCM chunks in order; neither
the sample writes nor the close rewrite or patch any header byte. -/
theorem C7_header_once (rate : Nat) (samples : List Chunk) :
    (BaseTTS.runRequestWav rate samples).out
      = WEvent.header 1 BaseTTS.SAMPLE_SIZE rate 0xFFFFFFF :: samples.map WEvent.data ∧
    (BaseTTS.runRequestWav rate samples).headerCount = 1 := by
  have hout : (BaseTTS.runRequestWav rate samples).out
      = WEvent.header 1 BaseTTS.SAMPLE_SIZE rate 0xFFFFFFF :: samples.map WEvent.data := by
    simp [BaseTTS.runRequestWav, WaveWrite.close, WaveWrite.ensure_header_written,
      WaveWrite.patchheader, WaveWrite.foldl_writeframesraw_out, BaseTTS.sr_callback,
      BaseTTS.start_stream_wave, WaveWrite.write_header, WaveWrite.new,
      WaveWrite.setnchannels, WaveWrite.setsampwidth, WaveWrite.setframerate]
  refine ⟨hout, ?_⟩
  rw [WaveWrite.headerCount, hout]
  simp only [List.countP_cons]
  have hzero : (samples.map WEvent.data).countP
      (fun e => match e with | WEvent.header _ _ _ _ => true | _ => false) = 0 := by
    induction samples with
    | nil => simp
    | cons c rest ih => simp [List.countP_cons, ih]
  simp [hzero]

/-- Action performed by the end-of-request clean-up code of BaseTTS and
by _start_stream: closing the wave framer, signalling end on the
FakeFile, closing the subprocess stdin, a wait that returns normally, a
wait whose TimeoutExpired is caught with pass, and a kill. -/
inductive Act
  | wave_close
  | file_end
  | stdin_close
  | wait_ok
  | wait_timeout
  | kill
deriving DecidableEq, Repr

/-- Tail of BaseTTS._generate after engine.generate returns: close the
wave framer; when a FakeFile target exists, signal end on it; when a
subprocess target exists, close its stdin and wait up to five seconds,
catching TimeoutExpired with pass. The function is total and returns a
plain action list: no error ever propagates to the caller, and no kill
is performed here. -/
def BaseTTS.generateClose (hasFile hasPopen timesOut : Bool) : List Act :=
  [Act.wave_close]
    ++ (if hasFile then [Act.file_end] else [])
    ++ (if hasPopen then
          [Act.stdin_close] ++ (if timesOut then [Act.wait_timeout] else [Act.wait_ok])
        else [])

/-- Actions of BaseTTS._start_stream before it selects the new target:
close any previous wave framer, drop the FakeFile reference, and kill
any subprocess still attached (this, not the close path, is where a
leftover encoder process is terminated). -/
def BaseTTS.start_stream_acts (hasPopen : Bool) : List Act :=
  [Act.wave_close] ++ (if hasPopen then [Act.kill] else [])

/-- C5 counterexample: when the bounded wait after closing the encoder
stdin times out, the close path performs no kill at that point, contrary
to the claim that the worker forcibly terminates the subprocess there. -/
theorem C5_counterexample :
    Act.kill ∉ BaseTTS.generateClose false true true := by decide

/-- C5 amended: on wait timeout the close path suppresses the error (the
action list is an ordinary value: wave close, stdin close, swallowed
timeout) and surfaces nothing to the caller, but the subprocess is not
terminated then; it is killed only by _start_stream when the worker sets
up the stream for its next request. -/
theorem C5_timeout_swallowed_kill_deferred :
    BaseTTS.generateClose false true true = [Act.wave_close, Act.stdin_close, Act.wait_timeout] ∧
    Act.kill ∉ BaseTTS.generateClose false true false ∧
    Act.kill ∈ BaseTTS.start_stream_acts true := by decide

/-- Busy bookkeeping of a ProcessTTS worker: the _processing event
(set when idle or when _generate has finished) and the _reading event
(set while a consumer-facing stream is still being produced or read). -/
structure ProcessTTS where
  processing : Bool
  reading : Bool
deriving DecidableEq, Repr

/-- Initial worker state: init sets _processing and leaves _reading
clear, so the worker reports not busy. -/
def ProcessTTS.idle : ProcessTTS := ⟨true, false⟩

/-- ProcessTTS.busy: not _processing.is_set() or _reading.is_set(). -/
def ProcessTTS.busy (w : ProcessTTS) : Bool := !w.processing || w.reading

/-- ProcessTTS.set_busy: clears _processing and sets _reading. -/
def ProcessTTS.set_busy (_ : ProcessTTS) : ProcessTTS := ⟨false, true⟩

/-- Flag-relevant event in the life of a claimed worker: the finally
clause of ProcessTTS._generate setting _processing, a consumer pulling a
non-terminal chunk (no flag effect), and the finally clause of
ProcessTTS._iter_me clearing _reading when the iterator terminates. -/
inductive WorkerEvt
  | genDone
  | chunkRead
  | iterDone
deriving DecidableEq, Repr

def ProcessTTS.step (w : ProcessTTS) : WorkerEvt → ProcessTTS
  | WorkerEvt.genDone => { w with processing := true }
  | WorkerEvt.chunkRead => w
  | WorkerEvt.iterDone => { w with reading := false }

def ProcessTTS.runEvts (w : ProcessTTS) (es : List WorkerEvt) : ProcessTTS :=
  es.foldl ProcessTTS.step w

theorem ProcessTTS.reading_preserved (es : List WorkerEvt) (w : ProcessTTS)
    (hes : WorkerEvt.iterDone ∉ es) (hw : w.reading = true) :
    (w.runEvts es).reading = true := by
  induction es generalizing w with
  | nil => exact hw
  | cons e rest ih =>
    have he : e ≠ WorkerEvt.iterDone := fun hcontra => hes (hcontra ▸ List.mem_cons_self _ _)
    have hrest : WorkerEvt.iterDone ∉ rest := fun hcontra => hes (List.mem_cons_of_mem _ hcontra)
    cases e with
    | genDone => exact ih _ hrest hw
    | chunkRead => exact ih _ hrest hw
    | iterDone => exact absurd rfl he

/-- C8: from the moment set_busy claims a worker until the consumer
iterator terminates (the only event clearing the _reading flag), the
worker reports busy after every sequence of the remaining events, in
particular across the completion of _generate; so the pool scan can
never select it while its previous stream is undrained. -/
theorem C8_busy_until_drained (w : ProcessTTS) (es : List WorkerEvt)
    (h : WorkerEvt.iterDone ∉ es) :
    ((w.set_busy).runEvts es).busy = true := by
  have hr : ((w.set_busy).runEvts es).reading = true :=
    ProcessTTS.reading_preserved es w.set_busy h rfl
  simp [ProcessTTS.busy, hr]

/-- Witness for C8: a claimed worker stays busy across generation
completion and a chunk read. -/
theorem C8_busy_until_drained_witness :
    WorkerEvt.iterDone ∉ [WorkerEvt.genDone, WorkerEvt.chunkRead] ∧
    ((ProcessTTS.idle.set_busy).runEvts [WorkerEvt.genDone, WorkerEvt.chunkRead]).busy = true :=
  ⟨by decide, C8_busy_until_drained ProcessTTS.idle _ (by decide)⟩

/-- Scan of MultiTTS.say over the worker tuple: index of the first
worker whose busy() is false, if any. -/
def findIdle : List ProcessTTS → Option Nat
  | [] => none
  | w :: ws => if w.busy then (findIdle ws).map (· + 1) else some 0

/-- Marking the selected worker busy: set_busy clears _processing and
sets _reading on the worker at the given index. -/
def setBusyAt (ws : List ProcessTTS) (i : Nat) : List ProcessTTS :=
  ws.set i ⟨false, true⟩

/-- Admission timeout of MultiTTS, in seconds. -/
def MultiTTS.TIMEOUT : Nat := 30

/-- Polling loop of MultiTTS.say, run under the dispatch lock. Time is
discretized into the 0.05 second poll iterations: wsAt t is the busy
state of the worker tuple as observed at poll iteration t, and fuel is
the number of further polls the admission window (TIMEOUT seconds past
the start) still allows. Each iteration scans for an idle worker; on
success it marks it busy and dispatches (the ok value: the chosen index
and the updated tuple standing for the returned lazy stream), otherwise
it sleeps and, once the deadline has passed, raises the Still busy
overload error. -/
def multiSayLoop (wsAt : Nat → List ProcessTTS) : Nat → Nat → Except String (Nat × List ProcessTTS)
  | fuel, t =>
    match findIdle (wsAt t) with
    | some i => Except.ok (i, setBusyAt (wsAt t) i)
    | none =>
      match fuel with
      | 0 => Except.error "Still busy"
      | Nat.succ f => multiSayLoop wsAt f (t + 1)

theorem findIdle_of_allBusy (ws : List ProcessTTS)
    (h : ∀ w ∈ ws, w.busy = true) : findIdle ws = none := by
  induction ws with
  | nil => rfl
  | cons w rest ih =>
    have hw : w.busy = true := h w (List.mem_cons_self _ _)
    have hrest : ∀ x ∈ rest, x.busy = true := fun x hx => h x (List.mem_cons_of_mem _ hx)
    simp [findIdle, hw, ih hrest]

theorem findIdle_lt_length (ws : List ProcessTTS) (i : Nat)
    (h : findIdle ws = some i) : i < ws.length := by
  induction ws generalizing i with
  | nil => simp [findIdle] at h
  | cons w rest ih =>
    by_cases hw : w.busy
    · simp only [findIdle, hw, if_pos] at h
      cases hfi : findIdle rest with
      | none => rw [hfi] at h; simp at h
      | some j =>
        rw [hfi] at h
        have hji : j + 1 = i := by simpa using h
        have hj := ih j hfi
        simp only [List.length_cons]
        omega
    · simp only [findIdle, hw] at h
      simp at h
      subst h
      simp

theorem setBusyAt_get? (ws : List ProcessTTS) (i : Nat) (h : i < ws.length) :
    (setBusyAt ws i).get? i = some ⟨false, true⟩ := by
  induction ws generalizing i with
  | nil => simp at h
  | cons w rest ih =>
    cases i with
    | zero => rfl
    | succ j =>
      have hj : j < rest.length := Nat.lt_of_succ_lt_succ h
      simpa [setBusyAt] using ih j hj

theorem multiSayLoop_allBusy (wsAt : Nat → List ProcessTTS) (fuel t : Nat)
    (h : ∀ u, t ≤ u → u ≤ t + fuel → ∀ w ∈ wsAt u, w.busy = true) :
    multiSayLoop wsAt fuel t = Except.error "Still busy" := by
  induction fuel generalizing t with
  | zero =>
    have hnone : findIdle (wsAt t) = none :=
      findIdle_of_allBusy _ (h t (Nat.le_refl t) (Nat.le_add_right t 0))
    simp [multiSayLoop, hnone]
  | succ f ih =>
    have hnone : findIdle (wsAt t) = none :=
      findIdle_of_allBusy _ (h t (Nat.le_refl t) (Nat.le_add_right t _))
    have hnext : ∀ u, t + 1 ≤ u → u ≤ (t + 1) + f → ∀ w ∈ wsAt u, w.busy = true := by
      intro u hu1 hu2
      exact h u (Nat.le_of_succ_le hu1) (by omega)
    simp [multiSayLoop, hnone, ih (t + 1) hnext]

theorem multiSayLoop_dispatch (wsAt : Nat → List ProcessTTS) (fuel t t0 i : Nat)
    (ht : t ≤ t0) (hfuel : t0 ≤ t + fuel)
    (hbusy : ∀ u, t ≤ u → u < t0 → ∀ w ∈ wsAt u, w.busy = true)
    (hfind : findIdle (wsAt t0) = some i) :
    multiSayLoop wsAt fuel t = Except.ok (i, setBusyAt (wsAt t0) i) := by
  induction fuel generalizing t with
  | zero =>
    have : t = t0 := Nat.le_antisymm ht (by omega)
    subst this
    simp [multiSayLoop, hfind]
  | succ f ih =>
    by_cases heq : t = t0
    · subst heq
      simp [multiSayLoop, hfind]
    · have htlt : t < t0 := Nat.lt_of_le_of_ne ht heq
      have hnone : findIdle (wsAt t) = none :=
        findIdle_of_allBusy _ (hbusy t (Nat.le_refl t) htlt)
      have hnext : ∀ u, t + 1 ≤ u → u < t0 → ∀ w ∈ wsAt u, w.busy = true := by
        intro u hu1 hu2
        exact hbusy u (Nat.le_of_succ_le hu1) hu2
      simp [multiSayLoop, hnone, ih (t + 1) htlt (by omega) hnext]

/-- C4: the admission control of MultiTTS.say. First part: when every
worker reports busy at every poll of the admission window, the loop
terminates with the Still busy overload error instead of blocking
further. Second part: when some poll before the deadline is the first to
see an idle worker, the request is dispatched to the first idle worker
of that scan, which is marked busy (processing cleared, reading set)
under the dispatch lock, and the dispatch value standing for the lazy
byte stream is returned. -/
theorem C4_admission_control (wsAt : Nat → List ProcessTTS) (fuel : Nat) :
    ((∀ u, u ≤ fuel → ∀ w ∈ wsAt u, w.busy = true) →
      multiSayLoop wsAt fuel 0 = Except.error "Still busy") ∧
    (∀ t0 i, t0 ≤ fuel →
      (∀ u, u < t0 → ∀ w ∈ wsAt u, w.busy = true) →
      findIdle (wsAt t0) = some i →
      multiSayLoop wsAt fuel 0 = Except.ok (i, setBusyAt (wsAt t0) i) ∧
      (setBusyAt (wsAt t0) i).get? i = some ⟨false, true⟩) := by
  constructor
  · intro h
    exact multiSayLoop_allBusy wsAt fuel 0 (fun u _ hu2 => h u (by omega))
  · intro t0 i ht0 hbusy hfind
    refine ⟨?_, ?_⟩
    · exact multiSayLoop_dispatch wsAt fuel 0 t0 i (Nat.zero_le _) (by omega)
        (fun u _ hu2 => hbusy u hu2) hfind
    · exact setBusyAt_get? _ _ (findIdle_lt_length _ _ hfind)

/-- Witness for C4: a one-worker pool held busy for the whole window is
rejected with the overload error, and a pool whose worker is idle at the
first scan gets the request dispatched and the worker marked busy. -/
theorem C4_admission_control_witness :
    multiSayLoop (fun _ => [⟨false, true⟩]) 1 0 = Except.error "Still busy" ∧
    multiSayLoop (fun _ => [ProcessTTS.idle]) 1 0
      = Except.ok (0, [⟨false, true⟩]) :=
  ⟨(C4_admission_control (fun _ => [⟨false, true⟩]) 1).1
      (fun u _ w hw => by
        simp only [List.mem_singleton] at hw
        subst hw
        rfl),
    ((C4_admission_control (fun _ => [ProcessTTS.idle]) 1).2 0 0 (Nat.zero_le _)
      (fun u hu => absurd hu (Nat.not_lt_zero u)) rfl).1⟩

/-- Format check at the head of the BaseTTS.say body. Because say is a
contextmanager generator, this body runs only when the caller enters the
returned context, not when MultiTTS.say invokes worker.say. On failure
it raises the descriptive Unsupported format error; on success the
request is enqueued to the worker (the ok value carries the queue with
the request appended), so a rejected request never reaches the worker
queue. -/
def BaseTTS.sayEnter (cmdKeys : List String) (format_ : String)
    (workerQueue : List String) : Except String (List String) :=
  if format_ ≠ "wav" ∧ ¬ format_ ∈ cmdKeys then
    Except.error ("Unsupported format: " ++ format_)
  else
    Except.ok (workerQueue ++ [format_])

/-- C3 (code bug): with a pool of one idle worker and a format that has
no encoder, MultiTTS.say marks the worker busy and returns the context
manager (the ok dispatch value); the Unsupported format rejection
happens only at context entry and enqueues nothing, but by then the
worker busy state has already been flipped from idle to busy and
nothing restores it, contradicting the claim that the busy and reading
state of every worker is left exactly as before the call. -/
theorem C3_busy_leak_on_bad_format :
    ProcessTTS.busy ProcessTTS.idle = false ∧
    multiSayLoop (fun _ => [ProcessTTS.idle]) 0 0 = Except.ok (0, [⟨false, true⟩]) ∧
    ProcessTTS.busy ⟨false, true⟩ = true ∧
    BaseTTS.sayEnter ["mp3", "opus"] "ogg" []
      = Except.error "Unsupported format: ogg" ∧
    BaseTTS.sayEnter ["mp3", "opus"] "wav" [] = Except.ok ["wav"] := by
  refine ⟨rfl, rfl, rfl, ?_, ?_⟩ <;>
    simp [BaseTTS.sayEnter, String.append]

/-- Work flag and request queue of a thread worker (OneTTS). The queue
holds requests; none is the shutdown sentinel that makes the run loop
break. The thread shares the memory of its creator, so join mutates the
very flag the callbacks read. -/
structure OneTTS where
  work : Bool
  queue : List (Option String)
deriving DecidableEq, Repr

/-- OneTTS.join: sets _work to False and enqueues the None shutdown
sentinel that blocks new intake. -/
def OneTTS.join (s : OneTTS) : OneTTS :=
  { work := false, queue := s.queue ++ [none] }

/-- Continuation flag returned by BaseTTS._speech_callback: the current
value of _work; returning false aborts the in-flight synthesis. -/
def OneTTS.speech_callback_ret (s : OneTTS) : Bool := s.work

/-- Work flags of a process worker (ProcessTTS) as seen from the two
processes: multiprocessing gives the child its own copy of _work, and
only the queue is a shared channel, so an assignment in the parent never
reaches the child. -/
structure ProcWork where
  parentWork : Bool
  childWork : Bool
  sharedQueue : List (Option String)
deriving DecidableEq, Repr

/-- ProcessTTS.join runs in the parent: it sets the parent copy of
_work to False and puts the None shutdown sentinel on the shared
queue; the child copy of _work is untouched. -/
def ProcWork.join (s : ProcWork) : ProcWork :=
  { s with parentWork := false, sharedQueue := s.sharedQueue ++ [none] }

/-- Continuation flag the speech callback returns inside the child
process: the child copy of _work. -/
def ProcWork.child_callback_ret (s : ProcWork) : Bool := s.childWork

/-- C6 counterexample: for a thread worker with synthesis in flight,
initiating join makes the chunk-delivery callback return false (the
in-flight abort mechanism), contradicting the claim that the callback
continues to return true after shutdown is initiated. -/
theorem C6_counterexample :
    (OneTTS.join ⟨true, []⟩).speech_callback_ret = false := by rfl

/-- C6 amended: on a thread worker (OneTTS) join clears _work, so the
chunk callback returns false and in-flight synthesis is aborted, while
the None sentinel blocks new intake; only on a process worker
(ProcessTTS) does the cleared flag stay in the parent copy, so the
child callback still returns true and the in-flight request runs to
completion, with intake blocked by the same sentinel. -/
theorem C6_join_abort_thread_not_process :
    ((OneTTS.join ⟨true, []⟩).speech_callback_ret = false ∧
      (OneTTS.join ⟨true, []⟩).queue = [none]) ∧
    ((ProcWork.join ⟨true, true, []⟩).child_callback_ret = true ∧
      (ProcWork.join ⟨true, true, []⟩).parentWork = false ∧
      (ProcWork.join ⟨true, true, []⟩).sharedQueue = [none]) := by
  decide

/-- Drain loop of ProcessTTS._clear_old: get_nowait until qsize is
zero. -/
def drainLoop : List Chunk → List Chunk
  | [] => []
  | _ :: rest => drainLoop rest

theorem drainLoop_eq_nil (l : List Chunk) : drainLoop l = [] := by
  induction l with
  | nil => rfl
  | cons c rest ih => simpa [drainLoop] using ih

/-- Inter-process stream state of a ProcessTTS worker: the contents of
the _stream queue and whether an _in_out relay thread from a previous
request exists. -/
structure ProcStream where
  stream : List Chunk
  hasInOut : Bool
deriving DecidableEq, Repr

/-- ProcessTTS._clear_old: join the previous relay thread when there is
one, which flushes its still-pending chunks into the stream queue, then
drain every queued chunk. -/
def ProcStream.clear_old (s : ProcStream) (pending : List Chunk) : ProcStream :=
  { stream := drainLoop (s.stream ++ (if s.hasInOut then pending else [])),
    hasInOut := s.hasInOut }

/-- ProcessTTS._select_target: clear the old relay and stream, then wire
a fresh relay thread for the new request target. -/
def ProcStream.select_target (s : ProcStream) (pending : List Chunk) : ProcStream :=
  { stream := (s.clear_old pending).stream, hasInOut := true }

/-- ProcessTTS._iter_me on the stream queue contents: yield chunks until
the first empty sentinel. -/
def iter_me : List Chunk → List Chunk
  | [] => []
  | c :: rest => if c = [] then [] else c :: iter_me rest

/-- C10: whatever chunks an earlier request left in the stream queue and
whatever its relay thread still had pending, _select_target starts the
new request with an empty stream queue, so after the new relay pushes
the new request chunks and the terminal sentinel the consumer iterator
yields exactly the new chunks and no stale byte. -/
theorem C10_no_stale_chunks (old pending new : List Chunk) (b : Bool)
    (h : ([] : Chunk) ∉ new) :
    (ProcStream.select_target ⟨old, b⟩ pending).stream = [] ∧
    iter_me ((ProcStream.select_target ⟨old, b⟩ pending).stream ++ new ++ [[]]) = new := by
  have hclear : (ProcStream.select_target ⟨old, b⟩ pending).stream = [] := by
    simp [ProcStream.select_target, ProcStream.clear_old, drainLoop_eq_nil]
  refine ⟨hclear, ?_⟩
  rw [hclear]
  simp only [List.nil_append]
  induction new with
  | nil => simp [iter_me]
  | cons c rest ih =>
    have hc : c ≠ [] := fun hcontra => h (hcontra ▸ List.mem_cons_self _ _)
    have hrest : ([] : Chunk) ∉ rest := fun hcontra => h (List.mem_cons_of_mem _ hcontra)
    simp [iter_me, hc, ih hrest]

/-- Witness for C10 with stale data from an earlier request present in
both the stream queue and the relay. -/
theorem C10_no_stale_chunks_witness :
    (([] : Chunk) ∉ [[5], [6]]) ∧
    (ProcStream.select_target ⟨[[9]], true⟩ [[8]]).stream = [] ∧
    iter_me ((ProcStream.select_target ⟨[[9]], true⟩ [[8]]).stream ++ [[5], [6]] ++ [[]])
      = [[5], [6]] :=
  ⟨by decide, C10_no_stale_chunks [[9]] [[8]] [[5], [6]] true (by decide)⟩
